import Mathlib

/-!
Verification of the StaxChange conversion pipeline (the two Express convert
routers) against its natural-language specification.  The JavaScript source is
shallowly embedded: strings are `String` (lists of characters), JavaScript
string helpers (`split`, `substring`, `includes`, `toLowerCase`, regex tests)
are spelled out as executable Lean functions on `List Char`, `JSON.parse` is
modelled by an executable fuelled JSON parser, and the network boundaries
(GitHub tree fetch, per-file content fetch, LLM call) are oracles passed in as
explicit function arguments.
-/

/-! ## JavaScript string primitives -/

/-- Model of a JavaScript string stored as its list of characters, rebuilt
into a Lean `String`. -/
def strOfList (l : List Char) : String := String.mk l

/-- Does `l` start with the list `pre2`?  (Helper for substring search.) -/
def beginsWith : List Char → List Char → Bool
  | [], _ => true
  | _ :: _, [] => false
  | a :: as, b :: bs => a == b && beginsWith as bs

/-- Does the list `hay` contain `needle` as a contiguous sublist?  Models the
JavaScript `String.prototype.includes` test. -/
def hasSubList (needle : List Char) : List Char → Bool
  | [] => beginsWith needle []
  | c :: rest => beginsWith needle (c :: rest) || hasSubList needle rest

/-- JavaScript `hay.includes(needle)`. -/
def strIncludes (hay needle : String) : Bool := hasSubList needle.data hay.data

/-- JavaScript `hay.endsWith(suffix)` (used to model anchored `$` regexes). -/
def strEndsWith (hay suffix : String) : Bool :=
  beginsWith suffix.data.reverse hay.data.reverse

/-- JavaScript `s.toLowerCase()` restricted to ASCII, matching the regex `i`
flag and `toLowerCase` uses in the source. -/
def lowerStr (s : String) : String := String.mk (s.data.map Char.toLower)

/-- Accumulator-style splitting of a character list at a separator character;
models JavaScript `s.split(sep)` for a one-character separator. -/
def splitCharAux (sep : Char) : List Char → List Char → List (List Char)
  | [], acc => [acc.reverse]
  | c :: r, acc =>
    if c == sep then acc.reverse :: splitCharAux sep r []
    else splitCharAux sep r (c :: acc)

/-- JavaScript `s.split(sep)` for a one-character separator. -/
def jsSplitChar (sep : Char) (s : String) : List String :=
  (splitCharAux sep s.data []).map String.mk

/-- JavaScript `array.join(".")` on the pieces of a split path. -/
def joinDots : List (List Char) → List Char
  | [] => []
  | [l] => l
  | l :: ls => l ++ '.' :: joinDots ls

/-- JavaScript `s.substring(0, n)`. -/
def jsTake (n : Nat) (s : String) : String := String.mk (s.data.take n)

/-! ## Data model (spec section 3, read off the source) -/

/-- A fetched repository file: `{ path, content, size, priority }` as built by
`fetchFiles` in the source. -/
structure SourceFile where
  path : String
  content : String
  size : Nat
  priority : Nat
deriving DecidableEq, Repr

/-- The caller-supplied target stack descriptor. -/
structure TargetSpec where
  language : String
  framework : String
  database : String
deriving DecidableEq, Repr

/-- One entry of the GitHub tree listing (`{ path, type }`). -/
structure TreeEntry where
  path : String
  type : String
deriving DecidableEq, Repr

/-- A converted output file.  Engine-produced files are read out of the LLM
JSON reply: `originalPath` is whatever string the reply carried (or `none`),
`isFallback` is the truthiness of the reply field, unvalidated.
Fallback-produced files always set `originalPath := some f.path` and
`isFallback := true`. -/
structure ConvertedFile where
  path : String
  content : String
  originalPath : Option String
  isFallback : Bool
deriving DecidableEq, Repr

/-- Per-batch outcome record pushed onto `batchResults` by the orchestrator. -/
structure BatchResult where
  batch : Nat
  status : String
  error : Option String
  fileCount : Nat
deriving DecidableEq, Repr

/-! ## File Selector (part_002: `isRelevantFile`, `getFilePriority`) -/

/-- The denylist regexes of `isRelevantFile`; each is an unanchored substring
test except the two `$`-anchored ones. -/
def skipHit (path : String) : Bool :=
  strIncludes path ("node_modules/") || strIncludes path (".git/") ||
  strEndsWith path (".DS_Store") || strEndsWith path (".log") ||
  strIncludes path (".cache/") || strIncludes path ("dist/") ||
  strIncludes path ("build/") || strIncludes path ("coverage/") ||
  strIncludes path (".nyc_output/") || strIncludes path (".vscode/") ||
  strIncludes path (".idea/")

/-- Extension allow-list of the `relevantExtensions` regex. -/
def relevantExtList : List String :=
  ["ts", "tsx", "js", "jsx", "py", "cs", "java", "go", "rs", "php", "rb",
   "kt", "scala", "sql", "sh", "yml", "yaml", "json", "html", "css", "scss",
   "less", "md", "txt", "env", "gitignore", "toml", "xml", "properties",
   "conf", "ini", "dockerfile", "makefile", "gradle", "maven", "pom",
   "package", "lock", "requirements", "gemfile", "cargo", "composer"]

/-- `relevantExtensions.test(path)`: case-insensitive anchored match of
`\.(ext)$` for one of the listed extensions. -/
def hasRelevantExt (path : String) : Bool :=
  relevantExtList.any (fun e => strEndsWith (lowerStr path) ("." ++ e))

/-- The `importantFiles` regex alternatives: case-insensitive exact matches
against the final path segment. -/
def importantFileNames : List String :=
  ["dockerfile", "makefile", "rakefile", "gulpfile", "gruntfile",
   "webpack.config", "rollup.config", "vite.config", "tsconfig", "jsconfig",
   "babel.config", "eslint", "prettier", "package", "requirements",
   "gemfile", "cargo", "composer"]

/-- JavaScript `path.split('/').pop() || ''`. -/
def baseName (path : String) : String :=
  (jsSplitChar '/' path).getLastD ("")

/-- `isRelevantFile` from part_002. -/
def isRelevantFile (path : String) : Bool :=
  if skipHit path then false
  else hasRelevantExt path ||
       importantFileNames.any (fun n => lowerStr (baseName path) == n)

/-- `getFilePriority` from part_002.  Note: the local variable named
`filename` in the source is the whole lowercased path, so every test below is
a substring test on the full path. -/
def getFilePriority (path : String) : Nat :=
  let filename := lowerStr path
  if strIncludes filename ("package.json") ||
     strIncludes filename ("requirements.txt") ||
     strIncludes filename ("gemfile") ||
     strIncludes filename ("cargo.toml") ||
     strIncludes filename ("pom.xml") ||
     strIncludes filename ("composer.json") then 1
  else if strIncludes filename ("main") || strIncludes filename ("index") ||
          strIncludes filename ("app.") || strIncludes filename ("server.") then 2
  else 3

/-! ## File Fetcher (part_002: `fetchFiles`); the per-file content retrieval
is an oracle `fetchOut : String → Option String` (`none` models a failed
fetch, which the source skips silently). -/

/-- The sort comparator of `fetchFiles`: priority ascending, then path
(`localeCompare` modelled as code-point order). -/
def entryLE (a b : TreeEntry) : Bool :=
  let pa := getFilePriority a.path
  let pb := getFilePriority b.path
  if pa = pb then decide (a.path ≤ b.path) else decide (pa < pb)

/-- Insertion of one element into a sorted list (model of the JS sort). -/
def insertLE (x : TreeEntry) : List TreeEntry → List TreeEntry
  | [] => [x]
  | y :: ys => if entryLE x y then x :: y :: ys else y :: insertLE x ys

/-- Insertion sort by `entryLE`; order details beyond the comparator are not
load-bearing for any claim. -/
def sortEntries (l : List TreeEntry) : List TreeEntry :=
  l.foldr insertLE []

/-- `fetchFiles` from part_002, with content retrieval as an oracle: filter
blobs through the selector, sort, truncate to 200, fetch each, silently skip
failures and files over 100000 characters. -/
def fetchFilesP2 (tree : List TreeEntry) (fetchOut : String → Option String) :
    List SourceFile :=
  let allFiles := tree.filter (fun n => n.type == "blob" && isRelevantFile n.path)
  let filesToProcess := (sortEntries allFiles).take 200
  filesToProcess.filterMap (fun f =>
    match fetchOut f.path with
    | none => none
    | some decoded =>
      if decoded.length > 100000 then none
      else some { path := f.path, content := decoded, size := decoded.length,
                  priority := getFilePriority f.path })

/-! ## JSON values and a model of `JSON.parse`

The parser is executable and fuelled (fuel decreases on every recursive call;
`parseJson` supplies ample fuel).  It follows the JSON grammar: a single
top-level value, no trailing input.  Numbers keep their lexeme: no claim
depends on numeric values. -/

/-- JSON values as produced by `JSON.parse`. -/
inductive Json where
  | null : Json
  | bool (b : Bool) : Json
  | num (lexeme : String) : Json
  | str (s : String) : Json
  | arr (elems : List Json) : Json
  | obj (members : List (String × Json)) : Json
deriving Repr

/-- JSON insignificant whitespace. -/
def isJsonWs (c : Char) : Bool :=
  c == ' ' || c == '\t' || c == '\n' || c == '\r'

/-- Skip JSON whitespace. -/
def skipWs (l : List Char) : List Char := l.dropWhile isJsonWs

/-- Value of one hex digit. -/
def hexVal (c : Char) : Option Nat :=
  if '0' ≤ c ∧ c ≤ '9' then some (c.toNat - '0'.toNat)
  else if 'a' ≤ c ∧ c ≤ 'f' then some (c.toNat - 'a'.toNat + 10)
  else if 'A' ≤ c ∧ c ≤ 'F' then some (c.toNat - 'A'.toNat + 10)
  else none

/-- Parse exactly four hex digits (the `\uXXXX` escape). -/
def parseHex4 : List Char → Option (Nat × List Char)
  | a :: b :: c :: d :: rest =>
    match hexVal a, hexVal b, hexVal c, hexVal d with
    | some x, some y, some z, some w => some (((x * 16 + y) * 16 + z) * 16 + w, rest)
    | _, _, _, _ => none
  | _ => none

/-- Parse a JSON string body after the opening quote; returns the decoded
characters and the input after the closing quote. -/
def pStr : Nat → List Char → Option (List Char × List Char)
  | 0, _ => none
  | _ + 1, [] => none
  | fuel + 1, c :: r =>
    if c == '"' then some ([], r)
    else if c == '\\' then
      match r with
      | [] => none
      | e :: r2 =>
        if e == '"' then (pStr fuel r2).map (fun p => ('"' :: p.1, p.2))
        else if e == '\\' then (pStr fuel r2).map (fun p => ('\\' :: p.1, p.2))
        else if e == '/' then (pStr fuel r2).map (fun p => ('/' :: p.1, p.2))
        else if e == 'b' then (pStr fuel r2).map (fun p => ('\x08' :: p.1, p.2))
        else if e == 'f' then (pStr fuel r2).map (fun p => ('\x0c' :: p.1, p.2))
        else if e == 'n' then (pStr fuel r2).map (fun p => ('\n' :: p.1, p.2))
        else if e == 'r' then (pStr fuel r2).map (fun p => ('\r' :: p.1, p.2))
        else if e == 't' then (pStr fuel r2).map (fun p => ('\t' :: p.1, p.2))
        else if e == 'u' then
          match parseHex4 r2 with
          | some (n, r3) => (pStr fuel r3).map (fun p => (Char.ofNat n :: p.1, p.2))
          | none => none
        else none
    else if c.toNat < 32 then none
    else (pStr fuel r).map (fun p => (c :: p.1, p.2))

/-- ASCII decimal digit test. -/
def isDigitCh (c : Char) : Bool := '0' ≤ c && c ≤ '9'

/-- Parse the integer-part digits of a JSON number: `0`, or a nonzero digit
followed by digits. -/
def pIntDigits (l : List Char) : Option (List Char × List Char) :=
  match l with
  | [] => none
  | c :: r =>
    if c == '0' then some ([c], r)
    else if isDigitCh c then some (c :: r.takeWhile isDigitCh, r.dropWhile isDigitCh)
    else none

/-- Parse the optional fraction part `.digits`. -/
def pFrac (l : List Char) : Option (List Char × List Char) :=
  match l with
  | '.' :: r =>
    match r.takeWhile isDigitCh with
    | [] => none
    | ds => some ('.' :: ds, r.dropWhile isDigitCh)
  | _ => some ([], l)

/-- Parse the optional exponent part `e[+-]digits`. -/
def pExp (l : List Char) : Option (List Char × List Char) :=
  match l with
  | e :: r =>
    if e == 'e' || e == 'E' then
      match r with
      | s :: r2 =>
        if s == '+' || s == '-' then
          match r2.takeWhile isDigitCh with
          | [] => none
          | ds => some (e :: s :: ds, r2.dropWhile isDigitCh)
        else
          match r.takeWhile isDigitCh with
          | [] => none
          | ds => some (e :: ds, r.dropWhile isDigitCh)
      | [] => none
    else some ([], l)
  | [] => some ([], l)

/-- Parse a JSON number starting at the head of the input. -/
def pNum (l : List Char) : Option (Json × List Char) :=
  let (sign, l1) :=
    match l with
    | '-' :: r => (['-'], r)
    | _ => (([] : List Char), l)
  match pIntDigits l1 with
  | none => none
  | some (ip, l2) =>
    match pFrac l2 with
    | none => none
    | some (fp, l3) =>
      match pExp l3 with
      | none => none
      | some (ep, l4) => some (Json.num (String.mk (sign ++ ip ++ fp ++ ep)), l4)

/-- Expect a literal keyword continuation (for `null`, `true`, `false`). -/
def expectLit (lit : List Char) (l : List Char) (v : Json) :
    Option (Json × List Char) :=
  if beginsWith lit l then some (v, l.drop lit.length) else none

mutual

/-- Parse one JSON value (leading whitespace allowed). -/
def pValue : Nat → List Char → Option (Json × List Char)
  | 0, _ => none
  | fuel + 1, l =>
    match skipWs l with
    | [] => none
    | c :: r =>
      if c == 'n' then expectLit (['u', 'l', 'l']) r Json.null
      else if c == 't' then expectLit (['r', 'u', 'e']) r (Json.bool true)
      else if c == 'f' then expectLit (['a', 'l', 's', 'e']) r (Json.bool false)
      else if c == '"' then
        (pStr fuel r).map (fun p => (Json.str (String.mk p.1), p.2))
      else if c == '[' then
        match skipWs r with
        | ']' :: r2 => some (Json.arr [], r2)
        | l2 => (pElems fuel l2).map (fun p => (Json.arr p.1, p.2))
      else if c == '{' then
        match skipWs r with
        | '}' :: r2 => some (Json.obj [], r2)
        | l2 => (pMembers fuel l2).map (fun p => (Json.obj p.1, p.2))
      else pNum (c :: r)

/-- Parse one-or-more array elements up to the closing bracket. -/
def pElems : Nat → List Char → Option (List Json × List Char)
  | 0, _ => none
  | fuel + 1, l =>
    match pValue fuel l with
    | none => none
    | some (v, rest) =>
      match skipWs rest with
      | ',' :: r2 => (pElems fuel r2).map (fun p => (v :: p.1, p.2))
      | ']' :: r2 => some ([v], r2)
      | _ => none

/-- Parse one-or-more object members up to the closing brace. -/
def pMembers : Nat → List Char → Option (List (String × Json) × List Char)
  | 0, _ => none
  | fuel + 1, l =>
    match skipWs l with
    | '"' :: r =>
      match pStr fuel r with
      | none => none
      | some (key, r2) =>
        match skipWs r2 with
        | ':' :: r3 =>
          match pValue fuel r3 with
          | none => none
          | some (v, rest) =>
            match skipWs rest with
            | ',' :: r4 => (pMembers fuel r4).map
                (fun p => ((String.mk key, v) :: p.1, p.2))
            | '}' :: r4 => some ([(String.mk key, v)], r4)
            | _ => none
        | _ => none
    | _ => none

end

/-- Model of `JSON.parse`: a single JSON value with nothing but whitespace
after it. -/
def parseJson (s : String) : Option Json :=
  match pValue (4 * (s.length + 1)) s.data with
  | some (v, rest) => if (skipWs rest).isEmpty then some v else none
  | none => none

/-! ## Batch Planner (part_001 lines 231-253, part_002 lines 380-410)

Both routers run the same greedy accumulation loop; part_002 first regroups
the files by priority tier and uses `sizeLimit = 80000`, part_001 keeps the
fetched order and uses `sizeLimit = 40000`. -/

/-- The greedy batching loop: `currentBatch`/`currentSize` accumulate files;
when adding the next file would exceed `sizeLimit` and the current batch is
non-empty, the batch is closed and the file starts a new one. -/
def greedyAux (sizeLimit : Nat) :
    List SourceFile → List SourceFile → Nat → List (List SourceFile)
  | [], currentBatch, _ =>
    if currentBatch = [] then [] else [currentBatch]
  | file :: rest, currentBatch, currentSize =>
    if currentSize + file.content.length > sizeLimit ∧ currentBatch ≠ [] then
      currentBatch :: greedyAux sizeLimit rest [file] file.content.length
    else
      greedyAux sizeLimit rest (currentBatch ++ [file]) (currentSize + file.content.length)

/-- part_001 planner: greedy loop straight over the fetched order. -/
def planBatchesNoGroup (sizeLimit : Nat) (files : List SourceFile) :
    List (List SourceFile) :=
  greedyAux sizeLimit files [] 0

/-- part_002 grouping step: the `fileGroups` object iterated in insertion
order `config, main, others`; the greedy state is shared across groups, so the
composite equals the greedy loop on the regrouped list. -/
def groupByPriority (files : List SourceFile) : List SourceFile :=
  files.filter (fun f => f.priority == 1) ++
  files.filter (fun f => f.priority == 2) ++
  files.filter (fun f => f.priority == 3)

/-- part_002 planner. -/
def planBatches (sizeLimit : Nat) (files : List SourceFile) :
    List (List SourceFile) :=
  greedyAux sizeLimit (groupByPriority files) [] 0

/-- Cumulative content size of a batch, as summed by the source
(`file.content.length`). -/
def batchSize (b : List SourceFile) : Nat :=
  (b.map (fun f => f.content.length)).sum

/-! ## Conversion Engine (part_002: `convertBatch`)

The LLM call is an oracle `resp : Except String String`: `.error` models a
raised network or HTTP failure (carrying its message), `.ok` carries the
textual reply `aiResponse`. -/

/-- The recovery regex `aiResponse.match(/\{[\s\S]*\}/)`: leftmost-longest,
i.e. the substring from the first opening brace to the last closing brace of
the whole reply, provided that closing brace comes after the opening one. -/
def jsonExtractL (l : List Char) : Option (List Char) :=
  let t := l.dropWhile (fun c => c ≠ '{')
  let w := (t.reverse.dropWhile (fun c => c ≠ '}')).reverse
  if w = [] then none else some w

/-- String-level wrapper for the recovery regex. -/
def jsonExtract (s : String) : Option String :=
  (jsonExtractL s.data).map String.mk

/-- The parse-and-recover stage of `convertBatch`: direct `JSON.parse`, then
the regex extraction reparsed, with the two failure messages of the source
(the JS template appends the inner parser message to the first one; the model
keeps the fixed text). -/
def parseStage (aiResponse : String) : Except String Json :=
  match parseJson aiResponse with
  | some parsed => Except.ok parsed
  | none =>
    match jsonExtract aiResponse with
    | some s =>
      match parseJson s with
      | some parsed => Except.ok parsed
      | none => Except.error ("Failed to parse AI response as JSON")
    | none => Except.error ("AI response does not contain valid JSON")

/-- Last-occurrence field lookup, matching `JSON.parse` duplicate-key
semantics combined with JS property access. -/
def jsLookup (members : List (String × Json)) (key : String) : Option Json :=
  members.foldl (fun acc kv => if kv.1 = key then some kv.2 else acc) none

/-- Read a JSON value as a string, if it is one. -/
def asStr : Option Json → Option String
  | some (Json.str s) => some s
  | _ => none

/-- Is the digit part of a JSON number lexeme all zeroes (so the value is 0)? -/
def zeroLexeme (lexeme : String) : Bool :=
  (lexeme.data.takeWhile (fun c => c ≠ 'e' ∧ c ≠ 'E')).all
    (fun c => !isDigitCh c || c == '0')

/-- JavaScript truthiness of an optional JSON field value. -/
def jsTruthy : Option Json → Bool
  | none => false
  | some Json.null => false
  | some (Json.bool b) => b
  | some (Json.num lexeme) => !zeroLexeme lexeme
  | some (Json.str s) => !s.data.isEmpty
  | some (Json.arr _) => true
  | some (Json.obj _) => true

/-- The `validFiles` filter of `convertBatch`: an entry survives only when it
is an object whose `path` and `content` are strings; the resulting record
carries the reply fields through unvalidated. -/
def entryToFile (j : Json) : Option ConvertedFile :=
  match j with
  | Json.obj ms =>
    match asStr (jsLookup ms ("path")), asStr (jsLookup ms ("content")) with
    | some p, some c =>
      some { path := p, content := c,
             originalPath := asStr (jsLookup ms ("originalPath")),
             isFallback := jsTruthy (jsLookup ms ("isFallback")) }
    | _, _ => none
  | _ => none

/-- `convertBatch` from part_002 (post-HTTP): parse and recover, require a
`files` array, filter valid entries, fail when none survive.  An `.error`
oracle value models the raised HTTP failure which the function rethrows. -/
def convertBatchP2 (_batch : List SourceFile) (_target : TargetSpec)
    (batchIndex : Nat) (resp : Except String String) :
    Except String (List ConvertedFile) :=
  match resp with
  | Except.error e => Except.error e
  | Except.ok aiResponse =>
    match parseStage aiResponse with
    | Except.error e => Except.error e
    | Except.ok parsed =>
      match parsed with
      | Json.obj ms =>
        match jsLookup ms ("files") with
        | some (Json.arr entries) =>
          let validFiles := entries.filterMap entryToFile
          if validFiles.isEmpty then
            Except.error ("Batch " ++ toString batchIndex ++
              ": No valid files in AI response")
          else Except.ok validFiles
        | _ => Except.error ("AI response missing files array")
      | _ => Except.error ("AI response missing files array")

/-! ## Fallback Generator (part_002: `createFallbackFiles`) -/

/-- The target-extension lookup `switch` of `createFallbackFiles`. -/
def targetExtFor (language : String) : String :=
  let l := lowerStr language
  if l == "python" then (".py")
  else if l == "javascript" || l == "node.js" then (".js")
  else if l == "typescript" then (".ts")
  else if l == "java" then (".java")
  else if l == "c#" || l == "csharp" then (".cs")
  else if l == "go" then (".go")
  else (".txt")

/-- The path conversion `file.path.split('.').slice(0, -1).join('.') +
targetExt`. -/
def convertPath (path ext : String) : String :=
  String.mk (joinDots ((splitCharAux '.' path.data []).dropLast) ++ ext.data)

/-- The bounded excerpt `file.content.substring(0, 1000)`. -/
def excerpt (c : String) : String := jsTake 1000 c

/-- The template text before the embedded excerpt. -/
def fallbackHeader (file : SourceFile) (target : TargetSpec) : String :=
  "// FALLBACK CONVERSION - NEEDS MANUAL REVIEW\n// Original file: " ++
  file.path ++ "\n// Target: " ++ target.language ++ " with " ++
  target.framework ++
  "\n// TODO: Convert the following original content to " ++
  target.language ++ "\n\n/*\nOriginal content:\n"

/-- The template text after the embedded excerpt. -/
def fallbackFooter (file : SourceFile) (target : TargetSpec) : String :=
  (if file.content.length > 1000 then "\n... (truncated)" else "") ++
  "\n*/\n\n// Add your converted " ++ target.language ++ " code here"

/-- The full fallback stub content template. -/
def fallbackContent (file : SourceFile) (target : TargetSpec) : String :=
  fallbackHeader file target ++ excerpt file.content ++ fallbackFooter file target

/-- `createFallbackFiles`: one stub per input file. -/
def createFallbackFiles (batch : List SourceFile) (target : TargetSpec) :
    List ConvertedFile :=
  batch.map (fun file =>
    { path := convertPath file.path (targetExtFor target.language),
      content := fallbackContent file target,
      originalPath := some file.path,
      isFallback := true })

/-! ## Conversion Orchestrator (part_002 handler, lines 350-489)

The batch loop, with `llm : Nat → Except String String` the per-batch LLM
oracle (keyed by zero-based loop index; `batchIndex` in messages is
one-based, as in the source).  The loop is a total function: the source
catches every batch failure, appends fallback stubs and records the outcome,
so nothing escapes the loop. -/

/-- The batch loop of the part_002 handler, returning the aggregated
`converted` list and the `batchResults` records. -/
def runBatchesAux (target : TargetSpec) (llm : Nat → Except String String) :
    Nat → List (List SourceFile) → List ConvertedFile × List BatchResult
  | _, [] => ([], [])
  | i, b :: rest =>
    match convertBatchP2 b target (i + 1) (llm i) with
    | Except.ok batchResult =>
      let p := runBatchesAux target llm (i + 1) rest
      (batchResult ++ p.1,
       { batch := i + 1, status := "success", error := none,
         fileCount := batchResult.length } :: p.2)
    | Except.error e =>
      let fallbackFiles := createFallbackFiles b target
      let p := runBatchesAux target llm (i + 1) rest
      (fallbackFiles ++ p.1,
       { batch := i + 1, status := "fallback", error := some e,
         fileCount := fallbackFiles.length } :: p.2)

/-- The `summary` object of the part_002 response. -/
structure Summary where
  totalOriginalFiles : Nat
  totalConvertedFiles : Nat
  successfullyConverted : Nat
  fallbackFiles : Nat
  batchResults : List BatchResult
deriving DecidableEq, Repr

/-- The `warnings` object of the part_002 response. -/
structure Warnings where
  message : String
  details : String
  fallbackFiles : List (Option String)
deriving DecidableEq, Repr

/-- The part_002 JSON response body (HTTP 200).  The zero-files early return
carries `message` and empty `files`; the main path carries `summary` and
possibly `warnings`. -/
structure ConvertResponse where
  files : List ConvertedFile
  message : Option String
  summary : Option Summary
  warnings : Option Warnings
deriving DecidableEq, Repr

/-- `convert` for part_002, from the point where request validation passed:
`treeRes` is the outcome of resolving the branch and tree (an `.error` models
a thrown GitHub failure, surfaced as the run-level 500), then fetch, plan,
run all batches, and assemble the response.  On the modelled path after a
successful tree fetch the handler always answers HTTP 200. -/
def convertP2 (treeRes : Except String (List TreeEntry))
    (fetchOut : String → Option String) (llm : Nat → Except String String)
    (target : TargetSpec) : Except String ConvertResponse :=
  match treeRes with
  | Except.error e => Except.error e
  | Except.ok tree =>
    let originals := fetchFilesP2 tree fetchOut
    if originals.isEmpty then
      Except.ok { files := [],
                  message := some ("No relevant files found in repository"),
                  summary := none, warnings := none }
    else
      let batches := planBatches 80000 originals
      let p := runBatchesAux target llm 0 batches
      let converted := p.1
      let batchResults := p.2
      let fallbackBatches :=
        (batchResults.filter (fun b => b.status == "fallback")).length
      Except.ok
        { files := converted,
          message := none,
          summary := some
            { totalOriginalFiles := originals.length,
              totalConvertedFiles := converted.length,
              successfullyConverted :=
                (converted.filter (fun f => !f.isFallback)).length,
              fallbackFiles :=
                (converted.filter (fun f => f.isFallback)).length,
              batchResults := batchResults },
          warnings :=
            if fallbackBatches > 0 then
              some { message := toString fallbackBatches ++
                       " batches required fallback conversion",
                     details := "Some files were converted using fallback method and need manual review",
                     fallbackFiles :=
                       (converted.filter (fun f => f.isFallback)).map
                         (fun f => f.originalPath) }
            else none }

/-- Observation helper: the `files` field of a successful response. -/
def resultFiles : Except String ConvertResponse → Option (List ConvertedFile)
  | Except.ok r => some r.files
  | Except.error _ => none

/-- Observation helper: did the handler answer successfully? -/
def isOkResponse : Except String ConvertResponse → Bool
  | Except.ok _ => true
  | Except.error _ => false

/-! ## Helper lemmas: greedy planner -/

/-- Flattening the greedy output recovers the pending batch followed by the
remaining input: the loop neither drops nor duplicates files. -/
theorem greedyAux_flatten (L : Nat) :
    ∀ (files cur : List SourceFile) (size : Nat),
      (greedyAux L files cur size).flatten = cur ++ files := by
  intro files
  induction files with
  | nil =>
    intro cur size
    by_cases hc : cur = [] <;> simp [greedyAux, hc]
  | cons f rest ih =>
    intro cur size
    by_cases hcond : size + f.content.length > L ∧ cur ≠ [] <;>
      simp [greedyAux, hcond, ih]

/-- Every batch emitted by the greedy loop is non-empty. -/
theorem greedyAux_ne_nil (L : Nat) :
    ∀ (files cur : List SourceFile) (size : Nat) (b : List SourceFile),
      b ∈ greedyAux L files cur size → b ≠ [] := by
  intro files
  induction files with
  | nil =>
    intro cur size b hb
    by_cases hc : cur = [] <;> simp [greedyAux, hc] at hb
    exact hb ▸ hc
  | cons f rest ih =>
    intro cur size b hb
    simp only [greedyAux] at hb
    by_cases hcond : size + f.content.length > L ∧ cur ≠ []
    · rw [if_pos hcond] at hb
      rcases List.mem_cons.mp hb with h | h
      · exact h ▸ hcond.2
      · exact ih _ _ _ h
    · rw [if_neg hcond] at hb
      exact ih _ _ _ hb

/-- The size of a batch grows by the content length of an appended file. -/
theorem batchSize_append_one (b : List SourceFile) (f : SourceFile) :
    batchSize (b ++ [f]) = batchSize b + f.content.length := by
  simp [batchSize]

/-- A singleton batch is within the limit, or its one file alone exceeds it. -/
theorem single_good (L : Nat) (f : SourceFile) :
    batchSize [f] ≤ L ∨ ∃ g, [f] = [g] ∧ L < g.content.length := by
  rcases le_or_lt f.content.length L with h | h
  · exact Or.inl (by simpa [batchSize] using h)
  · exact Or.inr ⟨f, rfl, h⟩

/-- Size invariant of the greedy loop: every emitted batch is within the
limit, or is a single file that alone exceeds the limit. -/
theorem greedyAux_bounded (L : Nat) :
    ∀ (files cur : List SourceFile) (size : Nat),
      size = batchSize cur →
      (cur = [] ∨ batchSize cur ≤ L ∨ ∃ g, cur = [g] ∧ L < g.content.length) →
      ∀ b ∈ greedyAux L files cur size,
        batchSize b ≤ L ∨ ∃ g, b = [g] ∧ L < g.content.length := by
  intro files
  induction files with
  | nil =>
    intro cur size hsz hgood b hb
    by_cases hc : cur = [] <;> simp [greedyAux, hc] at hb
    rcases hgood with h | h
    · exact absurd h hc
    · exact hb ▸ h
  | cons f rest ih =>
    intro cur size hsz hgood b hb
    simp only [greedyAux] at hb
    by_cases hcond : size + f.content.length > L ∧ cur ≠ []
    · rw [if_pos hcond] at hb
      rcases List.mem_cons.mp hb with h | h
      · rcases hgood with hnil | hg
        · exact absurd hnil hcond.2
        · exact h ▸ hg
      · exact ih [f] f.content.length (by simp [batchSize]) (Or.inr (single_good L f)) b h
    · rw [if_neg hcond] at hb
      rcases Decidable.not_and_iff_or_not.mp hcond with hle | hnil
      · have hle' : size + f.content.length ≤ L := Nat.le_of_not_lt hle
        refine ih (cur ++ [f]) (size + f.content.length)
          (by rw [batchSize_append_one, hsz]) (Or.inr (Or.inl ?_)) b hb
        rw [batchSize_append_one, ← hsz]
        exact hle'
      · have hcur : cur = [] := Decidable.not_not.mp hnil
        subst hcur
        have hsz0 : size = 0 := by simpa [batchSize] using hsz
        subst hsz0
        exact ih [f] f.content.length (by simp [batchSize])
          (Or.inr (single_good L f)) b (by simpa using hb)

/-- The part_002 priority regrouping is a permutation of its input whenever
every priority is one of the three tiers the source can assign. -/
theorem groupByPriority_perm (files : List SourceFile)
    (h : ∀ f ∈ files, f.priority = 1 ∨ f.priority = 2 ∨ f.priority = 3) :
    (groupByPriority files).Perm files := by
  have e2 : (files.filter (fun f => !(f.priority == 1))).filter
      (fun f => f.priority == 2) = files.filter (fun f => f.priority == 2) := by
    rw [List.filter_filter]
    exact List.filter_congr (fun f _ => by
      by_cases hp : f.priority = 2 <;> simp [hp])
  have e3 : (files.filter (fun f => !(f.priority == 1))).filter
      (fun f => !(f.priority == 2)) = files.filter (fun f => f.priority == 3) := by
    rw [List.filter_filter]
    refine List.filter_congr (fun f hf => ?_)
    rcases h f hf with h1 | h1 | h1 <;> simp [h1]
  have h23 : files.filter (fun f => f.priority == 2) ++
      files.filter (fun f => f.priority == 3) |>.Perm
      (files.filter (fun f => !(f.priority == 1))) := by
    rw [← e2, ← e3]
    exact List.filter_append_perm _ _
  have h123 : (groupByPriority files).Perm
      (files.filter (fun f => f.priority == 1) ++
       files.filter (fun f => !(f.priority == 1))) := by
    unfold groupByPriority
    rw [List.append_assoc]
    exact List.Perm.append_left _ h23
  exact h123.trans (List.filter_append_perm _ files)

/-- C2: For every input sequence of SourceFiles (carrying the three priority
tiers the Fetcher can assign) and every configured sizeLimit, the part_002
Batch Planner emits batches whose cumulative content size is at most the
limit except for single-file batches whose one file alone exceeds it, and the
batches flattened together are a permutation of the input: no file is
duplicated or dropped by the Planner. -/
theorem c2_planner_partition_bounded (sizeLimit : Nat) (files : List SourceFile)
    (h : ∀ f ∈ files, f.priority = 1 ∨ f.priority = 2 ∨ f.priority = 3) :
    ((planBatches sizeLimit files).flatten).Perm files ∧
    ∀ b ∈ planBatches sizeLimit files,
      batchSize b ≤ sizeLimit ∨ ∃ g, b = [g] ∧ sizeLimit < g.content.length := by
  constructor
  · have hj : (planBatches sizeLimit files).flatten = groupByPriority files := by
      unfold planBatches
      rw [greedyAux_flatten]
      rfl
    rw [hj]
    exact groupByPriority_perm files h
  · intro b hb
    exact greedyAux_bounded sizeLimit (groupByPriority files) [] 0
      (by simp [batchSize]) (Or.inl rfl) b hb

/-- Concrete fixture files for the C2 witness. -/
def w2a : SourceFile := { path := "package.json", content := "aaaaa", size := 5, priority := 1 }

/-- Second fixture file for the C2 witness. -/
def w2b : SourceFile := { path := "x.sql", content := "aaa", size := 3, priority := 3 }

/-- Witness for C2 at a concrete planner input. -/
theorem c2_witness :
    (∀ f ∈ [w2a, w2b], f.priority = 1 ∨ f.priority = 2 ∨ f.priority = 3) ∧
    (((planBatches 7 [w2a, w2b]).flatten).Perm [w2a, w2b] ∧
     ∀ b ∈ planBatches 7 [w2a, w2b],
       batchSize b ≤ 7 ∨ ∃ g, b = [g] ∧ 7 < g.content.length) :=
  ⟨by decide, c2_planner_partition_bounded 7 [w2a, w2b] (by decide)⟩

/-- A 30000-character file content for the C9 scenario. -/
def bigContent : String := String.mk (List.replicate 30000 'a')

/-- C9 fixture files. -/
def c9f1 : SourceFile := { path := "a.js", content := bigContent, size := 30000, priority := 3 }

/-- Second C9 fixture file. -/
def c9f2 : SourceFile := { path := "b.js", content := bigContent, size := 30000, priority := 3 }

/-- Third C9 fixture file. -/
def c9f3 : SourceFile := { path := "c.js", content := bigContent, size := 30000, priority := 3 }

/-- The fixture content has length 30000. -/
theorem bigContent_length : bigContent.length = 30000 := by
  show (List.replicate 30000 'a').length = 30000
  exact List.length_replicate 30000 'a'

/-- C9: three files of sizes 30000/30000/30000 under the part_001 size limit
40000 are planned as three singleton batches, because each addition after the
first would exceed the limit. -/
theorem c9_three_singleton_batches :
    planBatchesNoGroup 40000 [c9f1, c9f2, c9f3] = [[c9f1], [c9f2], [c9f3]] := by
  have h1 : c9f1.content.length = 30000 := bigContent_length
  have h2 : c9f2.content.length = 30000 := bigContent_length
  have h3 : c9f3.content.length = 30000 := bigContent_length
  unfold planBatchesNoGroup
  simp only [greedyAux, h1, h2, h3]
  norm_num

/-! ## Helper lemmas: path splitting -/

/-- Splitting a list that contains no separator yields one piece: the
accumulator followed by the rest. -/
theorem splitCharAux_no_sep (sep : Char) :
    ∀ (l acc : List Char), (∀ c ∈ l, c ≠ sep) →
      splitCharAux sep l acc = [acc.reverse ++ l] := by
  intro l
  induction l with
  | nil => intro acc _; simp [splitCharAux]
  | cons c r ih =>
    intro acc h
    have hc : ¬(c == sep) = true := by
      simpa using h c (List.mem_cons_self c r)
    simp only [splitCharAux, hc, if_neg, Bool.false_eq_true, not_false_iff]
    rw [ih (c :: acc) (fun d hd => h d (List.mem_cons_of_mem c hd))]
    simp

/-- C10: for an input file whose path contains no dot (such as `Dockerfile`,
admitted by the Selector through its well-known-basename list), the Fallback
Generator emits the bare canonical extension as the whole output path: the
original filename is dropped. -/
theorem c10_no_dot_path_collapses (f : SourceFile) (t : TargetSpec)
    (h : ∀ c ∈ f.path.data, c ≠ '.') :
    (createFallbackFiles [f] t).map (fun cf => cf.path) = [targetExtFor t.language] := by
  simp only [createFallbackFiles, List.map_cons, List.map_nil]
  rw [convertPath, splitCharAux_no_sep '.' f.path.data [] h]
  simp [joinDots]

/-- C10 witness fixture: a dotless path accepted by the Selector. -/
def fDocker : SourceFile := { path := "Dockerfile", content := "FROM node", size := 9, priority := 3 }

/-- The Python target used by several witnesses. -/
def tPy : TargetSpec := { language := "python", framework := "flask", database := "postgres" }

/-- Witness for C10 at the concrete `Dockerfile` input. -/
theorem c10_witness :
    isRelevantFile ("Dockerfile") = true ∧
    (∀ c ∈ fDocker.path.data, c ≠ '.') ∧
    (createFallbackFiles [fDocker] tPy).map (fun cf => cf.path) = [".py"] :=
  ⟨by decide, by decide, c10_no_dot_path_collapses fDocker tPy (by decide)⟩

/-- C6: the Fallback Generator returns exactly one ConvertedFile per input
file (stated as a pointwise `Forall₂` correspondence, which also forces equal
lengths): each output sets `isFallback = true`, carries the input file's path
as `originalPath`, and ends in the canonical extension looked up for the
TargetSpec language; and concretely the language `python` applied to
`src/app.ts` yields the output path `src/app.py`. -/
theorem c6_fallback_files_shape :
    (∀ (batch : List SourceFile) (t : TargetSpec),
      List.Forall₂ (fun f cf =>
          cf.isFallback = true ∧ cf.originalPath = some f.path ∧
          ∃ stem, cf.path = stem ++ targetExtFor t.language)
        batch (createFallbackFiles batch t)) ∧
    (∀ (f : SourceFile), f.path = "src/app.ts" → ∀ (t : TargetSpec),
      t.language = "python" →
      (createFallbackFiles [f] t).map (fun cf => cf.path) = ["src/app.py"]) := by
  constructor
  · intro batch t
    induction batch with
    | nil => exact List.Forall₂.nil
    | cons f rest ih =>
      refine List.Forall₂.cons ⟨rfl, rfl, ?_⟩ ih
      exact ⟨String.mk (joinDots ((splitCharAux '.' f.path.data []).dropLast)), rfl⟩
  · intro f hf t ht
    simp only [createFallbackFiles, List.map_cons, List.map_nil, hf, ht]
    rfl

/-- A fixture file at the C6 scenario path. -/
def fAppTs : SourceFile := { path := "src/app.ts", content := "let x = 1", size := 9, priority := 2 }

/-- Witness for C6 at the concrete scenario input. -/
theorem c6_witness :
    (createFallbackFiles [fAppTs] tPy).map (fun cf => cf.path) = ["src/app.py"] :=
  c6_fallback_files_shape.2 fAppTs rfl tPy rfl

/-! ## C7: the embedded excerpt -/

/-- The length of a packed character list as a `String`. -/
theorem strOfList_length (l : List Char) : (String.mk l).length = l.length := rfl

/-- C7 counterexample fixture: a file whose content is three characters. -/
def fTiny : SourceFile := { path := "a.ts", content := "abc", size := 3, priority := 3 }

/-- C7 counterexample: for the three-character file the `substring(0, 1000)`
excerpt IS the complete original content, and the generated fallback stub
embeds that complete original content, contradicting the claim that the full
original is never embedded regardless of file size. -/
theorem c7_counterexample :
    excerpt fTiny.content = fTiny.content ∧
    strIncludes (fallbackContent fTiny tPy) fTiny.content = true := by
  exact ⟨rfl, by decide⟩

/-- C7 (amended): the embedded excerpt is always `content.substring(0, 1000)`
— at most 1000 characters, a bounded prefix of the original — and the stub
content embeds exactly that excerpt; whenever the original content is longer
than 1000 characters the excerpt is a proper prefix, so the full original is
never embedded for files over the bound (files at or under the bound embed
their entire content, per the counterexample). -/
theorem c7_amended_excerpt_bounded (f : SourceFile) (t : TargetSpec) :
    (excerpt f.content).length ≤ 1000 ∧
    excerpt f.content = String.mk (f.content.data.take 1000) ∧
    fallbackContent f t =
      fallbackHeader f t ++ excerpt f.content ++ fallbackFooter f t ∧
    (f.content.length > 1000 → excerpt f.content ≠ f.content) := by
  refine ⟨?_, rfl, rfl, ?_⟩
  · rw [show excerpt f.content = String.mk (f.content.data.take 1000) from rfl,
       strOfList_length, List.length_take]
    exact Nat.min_le_left _ _
  · intro hlen heq
    have h1000 : (excerpt f.content).length = 1000 := by
      rw [show excerpt f.content = String.mk (f.content.data.take 1000) from rfl,
         strOfList_length, List.length_take]
      have : f.content.length = f.content.data.length := rfl
      omega
    rw [heq] at h1000
    omega

/-- C7 witness fixture: 1001 characters of content. -/
def fBig : SourceFile :=
  { path := "big.ts", content := String.mk (List.replicate 1001 'x'),
    size := 1001, priority := 3 }

/-- Witness for C7 at a concrete over-bound file. -/
theorem c7_witness :
    fBig.content.length > 1000 ∧ excerpt fBig.content ≠ fBig.content :=
  ⟨by show (List.replicate 1001 'x').length > 1000
      rw [List.length_replicate]
      decide, (c7_amended_excerpt_bounded fBig tPy).2.2.2
        (by show (List.replicate 1001 'x').length > 1000
            rw [List.length_replicate]
            decide)⟩

/-! ## C8: priority classification -/

/-- The dependency-manifest marker strings of `getFilePriority`. -/
def manifestMarkers : List String :=
  ["package.json", "requirements.txt", "gemfile", "cargo.toml", "pom.xml",
   "composer.json"]

/-- The entrypoint marker strings of `getFilePriority`. -/
def entryMarkers : List String := ["main", "index", "app.", "server."]

/-- The claim reading of the priority rule, following the claim wording:
the tests are applied to the filename (final path segment) only, not to
directory components. -/
def priorityByFilenameSpec (path : String) : Nat :=
  let filename := lowerStr (baseName path)
  if manifestMarkers.any (fun m => strIncludes filename m) then 1
  else if entryMarkers.any (fun m => strIncludes filename m) then 2
  else 3

/-- C8 counterexample: `main/util.rb` is accepted by the Selector; its
filename `util.rb` contains no entrypoint marker, so the claim assigns
priority 3, but the source tests the whole lowercased path, whose directory
component `main` matches, so the code assigns priority 2. -/
theorem c8_counterexample :
    isRelevantFile ("main/util.rb") = true ∧
    getFilePriority ("main/util.rb") = 2 ∧
    priorityByFilenameSpec ("main/util.rb") = 3 := by
  decide

/-- C8 (amended): for every path the source assigns priority 1 exactly when
the whole lowercased path contains a dependency-manifest marker, else 2
exactly when the whole lowercased path contains an entrypoint marker, else 3;
the substring tests run over the full path, so directory components also
trigger them. -/
theorem c8_amended_priority_full_path (path : String) :
    getFilePriority path =
      (if manifestMarkers.any (fun m => strIncludes (lowerStr path) m) then 1
       else if entryMarkers.any (fun m => strIncludes (lowerStr path) m) then 2
       else 3) := by
  unfold getFilePriority manifestMarkers entryMarkers
  simp only [List.any_cons, List.any_nil, Bool.or_false, Bool.or_assoc]

/-! ## Balanced-brace analysis for the recovery regex (C4, C5) -/

/-- Brace-depth scan: does `l` close every opened brace, never dip below the
starting depth `d`, and end at depth zero? -/
def dyckOk : List Char → Nat → Bool
  | [], d => d == 0
  | c :: r, d =>
    if c == '{' then dyckOk r (d + 1)
    else if c == '}' then decide (0 < d) && dyckOk r (d - 1)
    else dyckOk r d

/-- A balanced `{...}` block: starts with an opening brace, ends with a
closing brace, and its braces balance. -/
def balancedBraceBlock (w : List Char) : Bool :=
  (w.head? == some '{') && (w.getLast? == some '}') && dyckOk w 0

/-- Does the string contain a balanced `{...}` substring? (decidable search
over all contiguous substrings). -/
def hasBalancedSub (s : String) : Bool :=
  s.data.tails.any (fun t => t.inits.any balancedBraceBlock)

/-- Scan for the closing brace of a just-opened block, collecting the
brace-free middle; gives up at a nested opening brace. -/
def closeScan : List Char → Option (List Char)
  | [] => none
  | c :: r =>
    if c == '}' then some ['}']
    else if c == '{' then none
    else (closeScan r).map (fun w => c :: w)

/-- Find some brace-free balanced `{...}` window in the input. -/
def findBalanced : List Char → Option (List Char)
  | [] => none
  | c :: r =>
    if c == '{' then
      match closeScan r with
      | some w => some ('{' :: w)
      | none => findBalanced r
    else findBalanced r

/-- Is there an opening brace with a closing brace somewhere after it?  (the
condition for the recovery regex to match at all). -/
def pairExists : List Char → Bool
  | [] => false
  | c :: r => (c == '{' && r.contains '}') || pairExists r

/-- A successful `closeScan` returns a brace-free run capped by a closing
brace: a prefix of the input that closes depth one. -/
theorem closeScan_spec :
    ∀ (r w : List Char), closeScan r = some w →
      (∃ t, w ++ t = r) ∧ dyckOk w 1 = true ∧
      ∃ mid, w = mid ++ ['}'] := by
  intro r
  induction r with
  | nil => intro w hw; simp [closeScan] at hw
  | cons c r' ih =>
    intro w hw
    unfold closeScan at hw
    split at hw
    · rename_i hcEq
      have hc : c = '}' := by simpa using hcEq
      injection hw with hw
      subst hw
      subst hc
      exact ⟨⟨r', rfl⟩, by decide, [], rfl⟩
    · split at hw
      · exact Option.noConfusion hw
      · rename_i hcNe hoNe
        have hc2 : (c == '}') = false := by
          simpa using hcNe
        have ho2 : (c == '{') = false := by
          simpa using hoNe
        rw [Option.map_eq_some'] at hw
        rcases hw with ⟨w', hw', rfl⟩
        rcases ih w' hw' with ⟨⟨t, ht⟩, hd, mid, hmid⟩
        refine ⟨⟨t, by rw [List.cons_append, ht]⟩, ?_, c :: mid, by rw [hmid]; rfl⟩
        simp only [dyckOk, hc2, ho2, if_false, Bool.false_eq_true]
        exact hd

/-- A successful `findBalanced` result is a balanced `{...}` block occurring
contiguously in the input. -/
theorem findBalanced_spec :
    ∀ (l w : List Char), findBalanced l = some w →
      balancedBraceBlock w = true ∧ ∃ s t, l = s ++ (w ++ t) := by
  intro l
  induction l with
  | nil => intro w hw; simp [findBalanced] at hw
  | cons c r ih =>
    intro w hw
    unfold findBalanced at hw
    split at hw
    · rename_i hcEq
      have hc : c = '{' := by simpa using hcEq
      subst hc
      cases hcs : closeScan r with
      | some w' =>
        rw [hcs] at hw
        injection hw with hw
        subst hw
        rcases closeScan_spec r w' hcs with ⟨⟨t, ht⟩, hd, mid, hmid⟩
        constructor
        · unfold balancedBraceBlock
          have hlast : ('{' :: w').getLast? = some '}' := by
            rw [hmid]
            exact List.getLast?_concat ('{' :: mid)
          have hdy : dyckOk ('{' :: w') 0 = true := by
            simp only [dyckOk, if_pos]
            exact hd
          simp [hlast, hdy]
        · exact ⟨[], t, by simp [ht]⟩
      | none =>
        rw [hcs] at hw
        rcases ih w hw with ⟨hb, s, t, hl⟩
        exact ⟨hb, '{' :: s, t, by rw [hl]; rfl⟩
    · rcases ih w hw with ⟨hb, s, t, hl⟩
      exact ⟨hb, c :: s, t, by rw [hl]; rfl⟩

/-- When the closing scan gives up (a nested opening brace) but a closing
brace exists, the remainder itself contains an open-then-close pair. -/
theorem closeScan_none_pair :
    ∀ (r : List Char), closeScan r = none → r.contains '}' = true →
      pairExists r = true := by
  intro r
  induction r with
  | nil => intro _ h; simp [List.contains] at h
  | cons c r' ih =>
    intro hn hc
    unfold closeScan at hn
    split at hn
    · exact Option.noConfusion hn
    · split at hn
      · rename_i hcNe hoEq
        have ho : c = '{' := by simpa using hoEq
        subst ho
        have hc' : r'.contains '}' = true := by
          have : '}' ∈ '{' :: r' := List.elem_iff.mp hc
          rcases List.mem_cons.mp this with h | h
          · exact absurd h.symm (by decide)
          · exact List.elem_iff.mpr h
        simp only [pairExists]
        rw [Bool.or_eq_true]
        refine Or.inl ?_
        rw [Bool.and_eq_true]
        exact ⟨by decide, hc'⟩
      · rename_i hcNe hoNe
        have hmap : closeScan r' = none := by
          cases hcs : closeScan r' with
          | none => rfl
          | some w' => rw [hcs] at hn; simp at hn
        have hc' : r'.contains '}' = true := by
          have hmem : '}' ∈ c :: r' := List.elem_iff.mp hc
          rcases List.mem_cons.mp hmem with h | h
          · exact absurd (by simpa using h.symm) hcNe
          · exact List.elem_iff.mpr h
        have := ih hmap hc'
        simp only [pairExists]
        rw [Bool.or_eq_true]
        exact Or.inr this

/-- Whenever an opening brace is followed by a later closing brace, the
balanced-window search succeeds. -/
theorem pair_find :
    ∀ (l : List Char), pairExists l = true → (findBalanced l).isSome = true := by
  intro l
  induction l with
  | nil => intro h; simp [pairExists] at h
  | cons c r ih =>
    intro h
    unfold pairExists at h
    rw [Bool.or_eq_true] at h
    by_cases hc : c = '{'
    · subst hc
      unfold findBalanced
      rw [if_pos (by simp)]
      cases hcs : closeScan r with
      | some w => simp
      | none =>
        have hp : pairExists r = true := by
          rcases h with h | h
          · rw [Bool.and_eq_true] at h
            exact closeScan_none_pair r hcs h.2
          · exact h
        exact ih hp
    · have hp : pairExists r = true := by
        rcases h with h | h
        · rw [Bool.and_eq_true] at h
          exact absurd (by simpa using h.1) hc
        · exact h
      unfold findBalanced
      rw [if_neg (by simpa using hc)]
      exact ih hp

/-- `pairExists` is preserved by prepending arbitrary characters. -/
theorem pairExists_append_right :
    ∀ (a b : List Char), pairExists b = true → pairExists (a ++ b) = true := by
  intro a b hb
  induction a with
  | nil => simpa using hb
  | cons c a' ih => simp [pairExists, ih]

/-- The head of a `dropWhile` result fails the predicate. -/
theorem dropWhile_head_not (p : Char → Bool) :
    ∀ (l : List Char) (c : Char) (r : List Char),
      l.dropWhile p = c :: r → p c = false := by
  intro l
  induction l with
  | nil => intro c r h; simp [List.dropWhile] at h
  | cons a as ih =>
    intro c r h
    rw [List.dropWhile_cons] at h
    split at h
    · exact ih c r h
    · rename_i hpa
      injection h with h1 _
      subst h1
      exact Bool.eq_false_iff.mpr hpa

/-- A successful recovery-regex extraction implies an opening brace with a
later closing brace somewhere in the input. -/
theorem jsonExtractL_pair (l w : List Char) (h : jsonExtractL l = some w) :
    pairExists l = true := by
  simp only [jsonExtractL] at h
  split at h
  · exact Option.noConfusion h
  · rename_i hw0
    injection h with h
    have hne : (l.dropWhile (fun c => c ≠ '{')).reverse.dropWhile
        (fun c => c ≠ '}') ≠ [] := by
      intro hnil
      apply hw0
      rw [hnil]
      rfl
    cases hd : (l.dropWhile (fun c => c ≠ '{')).reverse.dropWhile
        (fun c => c ≠ '}') with
    | nil => exact absurd hd hne
    | cons d e =>
      have hdClose : d = '}' := by
        have := dropWhile_head_not _ _ _ _ hd
        simpa using this
      subst hdClose
      have hsub : List.Sublist ('}' :: e)
          ((l.dropWhile (fun c => c ≠ '{')).reverse) := by
        rw [← hd]
        exact List.dropWhile_sublist _
      have hmemRev : '}' ∈ (l.dropWhile (fun c => c ≠ '{')).reverse :=
        List.Sublist.mem (List.mem_cons_self _ _) hsub
      have hmemT : '}' ∈ l.dropWhile (fun c => c ≠ '{') :=
        List.mem_reverse.mp hmemRev
      cases ht : l.dropWhile (fun c => c ≠ '{') with
      | nil => rw [ht] at hmemT; simp at hmemT
      | cons t0 t' =>
        have ht0 : t0 = '{' := by
          have := dropWhile_head_not _ _ _ _ ht
          simpa using this
        subst ht0
        have hmem' : '}' ∈ t' := by
          rw [ht] at hmemT
          rcases List.mem_cons.mp hmemT with hbad | hok
          · exact absurd hbad.symm (by decide)
          · exact hok
        have hpt : pairExists ('{' :: t') = true := by
          simp only [pairExists]
          rw [Bool.or_eq_true, Bool.and_eq_true]
          exact Or.inl ⟨by decide, List.elem_iff.mpr hmem'⟩
        have hsplit : l.takeWhile (fun c => c ≠ '{') ++
            ('{' :: t') = l := by
          rw [← ht]
          exact List.takeWhile_append_dropWhile _ _
        rw [← hsplit]
        exact pairExists_append_right _ _ hpt

/-- When the reply contains no balanced `{...}` substring, the recovery regex
of `convertBatch` does not match. -/
theorem extract_none_of_no_balanced (s : String)
    (h : hasBalancedSub s = false) : jsonExtract s = none := by
  cases hex : jsonExtractL s.data with
  | none => simp [jsonExtract, hex]
  | some w =>
    exfalso
    have hp := jsonExtractL_pair s.data w hex
    have hf := pair_find s.data hp
    cases hfb : findBalanced s.data with
    | none => rw [hfb] at hf; simp at hf
    | some w2 =>
      rcases findBalanced_spec s.data w2 hfb with ⟨hb, s1, t1, hl⟩
      have htrue : hasBalancedSub s = true := by
        unfold hasBalancedSub
        rw [List.any_eq_true]
        refine ⟨w2 ++ t1, ?_, ?_⟩
        · rw [List.mem_tails]
          exact ⟨s1, hl.symm⟩
        · rw [List.any_eq_true]
          exact ⟨w2, (List.mem_inits _ _).mpr ⟨t1, rfl⟩, hb⟩
      rw [htrue] at h
      exact Bool.noConfusion h

/-! ## C5: the recovery extraction -/

/-- Close a brace block opened at depth `d`, tracking nesting (used only by
the claim-side definition below). -/
def balClose : List Char → Nat → Option (List Char)
  | [], _ => none
  | c :: r, d =>
    if c == '}' then
      if d == 1 then some ['}']
      else (balClose r (d - 1)).map (fun w => '}' :: w)
    else if c == '{' then (balClose r (d + 1)).map (fun w => c :: w)
    else (balClose r d).map (fun w => c :: w)

/-- Claim-side definition, following the claim wording: the first balanced
`{...}` substring of the reply (scan to the first opening brace from which
the brace depth returns to zero, taking the shortest such window). -/
def firstBalancedAux : List Char → Option (List Char)
  | [] => none
  | c :: r =>
    if c == '{' then
      match balClose r 1 with
      | some w => some ('{' :: w)
      | none => firstBalancedAux r
    else firstBalancedAux r

/-- String-level wrapper of the claim-side first-balanced-substring
extraction. -/
def firstBalancedSubSpec (s : String) : Option String :=
  (firstBalancedAux s.data).map String.mk

/-- The C5 counterexample reply: a well-formed JSON object followed by junk
and a stray closing brace. -/
def r5 : String := "\x7b\"a\":1\x7d junk \x7d"

/-- C5 counterexample: on the concrete reply, direct parsing fails; the first
balanced `{...}` substring is the leading well-formed object and parses
successfully, so under the claim the recovery pass would succeed; but the
source regex `/\{[\s\S]*\}/` grabs from the first opening brace to the LAST
closing brace, that larger substring does not parse, and `convertBatch`
raises the malformed-response failure instead.  The two extractions differ,
refuting the claim as stated. -/
theorem c5_counterexample :
    parseJson r5 = none ∧
    firstBalancedSubSpec r5 = some ("\x7b\"a\":1\x7d") ∧
    (parseJson ((firstBalancedSubSpec r5).getD (""))).isSome = true ∧
    jsonExtract r5 = some r5 ∧
    parseStage r5 = Except.error ("Failed to parse AI response as JSON") ∧
    jsonExtract r5 ≠ firstBalancedSubSpec r5 := by
  refine ⟨rfl, rfl, rfl, rfl, rfl, ?_⟩
  decide

/-- C5 (amended): when direct JSON parsing of the reply fails, the recovery
pass extracts the substring running from the first opening brace to the last
closing brace of the reply (the leftmost-longest match of `/\{[\s\S]*\}/`,
not the first balanced substring) and parses that; if no such substring
exists, or it also fails to parse, `convertBatch` raises a Malformed Response
failure with the corresponding message. -/
theorem c5_amended_recovery (reply : String) (hd : parseJson reply = none) :
    (jsonExtract reply = none →
      parseStage reply =
        Except.error ("AI response does not contain valid JSON")) ∧
    (∀ s, jsonExtract reply = some s → parseJson s = none →
      parseStage reply =
        Except.error ("Failed to parse AI response as JSON")) ∧
    (∀ s, jsonExtract reply = some s → ∀ j, parseJson s = some j →
      parseStage reply = Except.ok j) := by
  refine ⟨?_, ?_, ?_⟩
  · intro hex
    simp [parseStage, hd, hex]
  · intro s hex hps
    simp [parseStage, hd, hex, hps]
  · intro s hex j hpj
    simp [parseStage, hd, hex, hpj]

/-- Witness for C5 at a concrete reply with no closing brace after its
opening brace. -/
theorem c5_witness :
    parseJson ("no json \x7b here") = none ∧
    jsonExtract ("no json \x7b here") = none ∧
    parseStage ("no json \x7b here") =
      Except.error ("AI response does not contain valid JSON") :=
  ⟨rfl, rfl, (c5_amended_recovery ("no json \x7b here") rfl).1 rfl⟩

/-! ## Orchestrator loop lemmas -/

/-- The batch loop records exactly one outcome per batch: it always runs to
completion (it is a total function: every engine failure is caught). -/
theorem runBatchesAux_length (target : TargetSpec)
    (llm : Nat → Except String String) :
    ∀ (bs : List (List SourceFile)) (j : Nat),
      (runBatchesAux target llm j bs).2.length = bs.length := by
  intro bs
  induction bs with
  | nil => intro j; rfl
  | cons b rest ih =>
    intro j
    unfold runBatchesAux
    cases hcb : convertBatchP2 b target (j + 1) (llm j) with
    | ok fs => simp [ih (j + 1)]
    | error e => simp [ih (j + 1)]

/-- Unfolding of the batch loop at a succeeding head batch. -/
theorem runBatchesAux_cons_ok (target : TargetSpec)
    (llm : Nat → Except String String) (b : List SourceFile)
    (rest : List (List SourceFile)) (j : Nat) (fs : List ConvertedFile)
    (h : convertBatchP2 b target (j + 1) (llm j) = Except.ok fs) :
    runBatchesAux target llm j (b :: rest) =
      (fs ++ (runBatchesAux target llm (j + 1) rest).1,
       { batch := j + 1, status := "success", error := none,
         fileCount := fs.length } :: (runBatchesAux target llm (j + 1) rest).2) := by
  rw [runBatchesAux, h]

/-- Unfolding of the batch loop at a failing head batch. -/
theorem runBatchesAux_cons_error (target : TargetSpec)
    (llm : Nat → Except String String) (b : List SourceFile)
    (rest : List (List SourceFile)) (j : Nat) (e : String)
    (h : convertBatchP2 b target (j + 1) (llm j) = Except.error e) :
    runBatchesAux target llm j (b :: rest) =
      (createFallbackFiles b target ++ (runBatchesAux target llm (j + 1) rest).1,
       { batch := j + 1, status := "fallback", error := some e,
         fileCount := (createFallbackFiles b target).length } ::
         (runBatchesAux target llm (j + 1) rest).2) := by
  rw [runBatchesAux, h]

/-- When the engine raises on batch `i`, the loop records a fallback outcome
carrying the raised message at position `i` and splices the Fallback
Generator stubs for that batch into the aggregated output. -/
theorem runBatchesAux_error_at (target : TargetSpec)
    (llm : Nat → Except String String) :
    ∀ (bs : List (List SourceFile)) (j i : Nat) (h : i < bs.length)
      (e : String),
      convertBatchP2 (bs.get ⟨i, h⟩) target (j + i + 1) (llm (j + i)) =
        Except.error e →
      (runBatchesAux target llm j bs).2.get? i =
        some { batch := j + i + 1, status := "fallback", error := some e,
               fileCount :=
                 (createFallbackFiles (bs.get ⟨i, h⟩) target).length } ∧
      List.IsInfix (createFallbackFiles (bs.get ⟨i, h⟩) target)
        (runBatchesAux target llm j bs).1 := by
  intro bs
  induction bs with
  | nil => intro j i h; exact absurd h (by simp)
  | cons b rest ih =>
    intro j i h e hcb
    cases i with
    | zero =>
      have hget : (b :: rest).get ⟨0, h⟩ = b := rfl
      rw [hget] at hcb
      have hcb' : convertBatchP2 b target (j + 1) (llm j) = Except.error e := by
        simpa using hcb
      rw [runBatchesAux_cons_error target llm b rest j e hcb']
      refine ⟨by simp, [], (runBatchesAux target llm (j + 1) rest).1, by simp⟩
    | succ i' =>
      have hlt : i' < rest.length := Nat.lt_of_succ_lt_succ h
      have hget : (b :: rest).get ⟨i' + 1, h⟩ = rest.get ⟨i', hlt⟩ := rfl
      rw [hget] at hcb
      have harith1 : j + (i' + 1) + 1 = (j + 1) + i' + 1 := by omega
      have harith2 : j + (i' + 1) = (j + 1) + i' := by omega
      rw [harith1, harith2] at hcb
      rcases ih (j + 1) i' hlt e hcb with ⟨hres, hinf⟩
      cases hcb0 : convertBatchP2 b target (j + 1) (llm j) with
      | ok fs =>
        rw [runBatchesAux_cons_ok target llm b rest j fs hcb0]
        constructor
        · simp only [List.get?_cons_succ]
          rw [hres, harith1, hget]
        · rcases hinf with ⟨s, t, hst⟩
          exact ⟨fs ++ s, t, by rw [hget, List.append_assoc, List.append_assoc,
            ← List.append_assoc s, hst]⟩
      | error e0 =>
        rw [runBatchesAux_cons_error target llm b rest j e0 hcb0]
        constructor
        · simp only [List.get?_cons_succ]
          rw [hres, harith1, hget]
        · rcases hinf with ⟨s, t, hst⟩
          exact ⟨createFallbackFiles b target ++ s, t,
            by rw [hget, List.append_assoc, List.append_assoc,
              ← List.append_assoc s, hst]⟩

/-- C4: for every batch whose LLM reply is not valid JSON and contains no
balanced `{...}` substring, the loop records outcome `"fallback"` for that
batch with the captured error message, the Fallback Generator stubs for the
batch are spliced into the aggregated result, and the loop still produces one
outcome per batch (the loop is a total function — no exception escapes it). -/
theorem c4_fallback_on_unparseable (batches : List (List SourceFile))
    (target : TargetSpec) (llm : Nat → Except String String) (i : Nat)
    (reply : String) (hi : i < batches.length)
    (hr : llm i = Except.ok reply)
    (hp : parseJson reply = none)
    (hb : hasBalancedSub reply = false) :
    (runBatchesAux target llm 0 batches).2.length = batches.length ∧
    (runBatchesAux target llm 0 batches).2.get? i =
      some { batch := i + 1, status := "fallback",
             error := some ("AI response does not contain valid JSON"),
             fileCount :=
               (createFallbackFiles (batches.get ⟨i, hi⟩) target).length } ∧
    List.IsInfix (createFallbackFiles (batches.get ⟨i, hi⟩) target)
      (runBatchesAux target llm 0 batches).1 := by
  have hex : jsonExtract reply = none := extract_none_of_no_balanced reply hb
  have hcb : convertBatchP2 (batches.get ⟨i, hi⟩) target (0 + i + 1)
      (llm (0 + i)) =
      Except.error ("AI response does not contain valid JSON") := by
    rw [Nat.zero_add, hr]
    unfold convertBatchP2
    simp [parseStage, hp, hex]
  rcases runBatchesAux_error_at target llm batches 0 i hi _ hcb with ⟨h1, h2⟩
  refine ⟨runBatchesAux_length target llm batches 0, ?_, h2⟩
  rw [h1, Nat.zero_add]

/-- C4 witness fixtures. -/
def fW : SourceFile := { path := "w.ts", content := "let w = 0", size := 9, priority := 3 }

/-- The C4 witness oracle: every batch gets the unparseable reply. -/
def llmHello : Nat → Except String String := fun _ => Except.ok ("hello")

/-- Witness for C4 at a concrete one-batch run with the reply `hello`. -/
theorem c4_witness :
    parseJson ("hello") = none ∧ hasBalancedSub ("hello") = false ∧
    ((runBatchesAux tPy llmHello 0 [[fW]]).2.length = [[fW]].length ∧
     (runBatchesAux tPy llmHello 0 [[fW]]).2.get? 0 =
       some { batch := 1, status := "fallback",
              error := some ("AI response does not contain valid JSON"),
              fileCount := (createFallbackFiles [fW] tPy).length } ∧
     List.IsInfix (createFallbackFiles [fW] tPy)
       (runBatchesAux tPy llmHello 0 [[fW]]).1) :=
  ⟨rfl, by decide,
   c4_fallback_on_unparseable [[fW]] tPy llmHello 0 ("hello")
     (by decide) rfl rfl (by decide)⟩

/-- Every aggregated output file either came from a successful engine reply
for some batch, or is a Fallback Generator stub for some file of some batch. -/
theorem runBatchesAux_mem (target : TargetSpec)
    (llm : Nat → Except String String) :
    ∀ (bs : List (List SourceFile)) (j : Nat) (cf : ConvertedFile),
      cf ∈ (runBatchesAux target llm j bs).1 →
      (∃ i b fs, bs.get? i = some b ∧
        convertBatchP2 b target (j + i + 1) (llm (j + i)) = Except.ok fs ∧
        cf ∈ fs) ∨
      (∃ b, b ∈ bs ∧ cf ∈ createFallbackFiles b target) := by
  intro bs
  induction bs with
  | nil => intro j cf hcf; simp [runBatchesAux] at hcf
  | cons b rest ih =>
    intro j cf hcf
    cases hcb : convertBatchP2 b target (j + 1) (llm j) with
    | ok fs =>
      rw [runBatchesAux_cons_ok target llm b rest j fs hcb] at hcf
      rcases List.mem_append.mp hcf with h | h
      · exact Or.inl ⟨0, b, fs, rfl, by simpa using hcb, h⟩
      · rcases ih (j + 1) cf h with ⟨i, b', fs', hget, hcb', hmem⟩ | ⟨b', hb', hmem⟩
        · refine Or.inl ⟨i + 1, b', fs', by simpa using hget, ?_, hmem⟩
          have h1 : j + (i + 1) + 1 = (j + 1) + i + 1 := by omega
          have h2 : j + (i + 1) = (j + 1) + i := by omega
          rw [h1, h2]
          exact hcb'
        · exact Or.inr ⟨b', List.mem_cons_of_mem b hb', hmem⟩
    | error e =>
      rw [runBatchesAux_cons_error target llm b rest j e hcb] at hcf
      rcases List.mem_append.mp hcf with h | h
      · exact Or.inr ⟨b, List.mem_cons_self b rest, h⟩
      · rcases ih (j + 1) cf h with ⟨i, b', fs', hget, hcb', hmem⟩ | ⟨b', hb', hmem⟩
        · refine Or.inl ⟨i + 1, b', fs', by simpa using hget, ?_, hmem⟩
          have h1 : j + (i + 1) + 1 = (j + 1) + i + 1 := by omega
          have h2 : j + (i + 1) = (j + 1) + i := by omega
          rw [h1, h2]
          exact hcb'
        · exact Or.inr ⟨b', List.mem_cons_of_mem b hb', hmem⟩

/-- Every file of every planned batch is one of the planner input files. -/
theorem planBatches_mem (L : Nat) (files : List SourceFile)
    (b : List SourceFile) (hb : b ∈ planBatches L files)
    (f : SourceFile) (hf : f ∈ b) : f ∈ files := by
  have hjoin : f ∈ (planBatches L files).flatten :=
    List.mem_flatten.mpr ⟨b, hb, hf⟩
  have heq : (planBatches L files).flatten = groupByPriority files := by
    unfold planBatches
    rw [greedyAux_flatten]
    rfl
  rw [heq] at hjoin
  unfold groupByPriority at hjoin
  rcases List.mem_append.mp hjoin with h | h
  · rcases List.mem_append.mp h with h | h
    · exact (List.mem_filter.mp h).1
    · exact (List.mem_filter.mp h).1
  · exact (List.mem_filter.mp h).1

/-- Shared concrete run fixtures for the C3 claim. -/
def w3tree : List TreeEntry := [{ path := "src/app.ts", type := "blob" }]

/-- Fetch oracle returning one-character content for every path. -/
def w3fetch : String → Option String := fun _ => some ("x")

/-- LLM oracle raising a network failure for every batch. -/
def w3llm : Nat → Except String String := fun _ => Except.error ("network failure")

/-- LLM oracle answering with a well-formed reply whose `originalPath` names
a file that was never fetched. -/
def cx3llm : Nat → Except String String :=
  fun _ => Except.ok
    ("\x7b\"files\":[\x7b\"path\":\"a.py\",\"content\":\"c\",\"originalPath\":\"ghost.ts\"\x7d]\x7d")

/-- C3 counterexample: in a run whose only fetched file is `src/app.ts`, the
LLM reply carries `originalPath: "ghost.ts"`; `convertBatch` validates only
`path` and `content`, so the run succeeds and its result contains an
engine-produced file (`isFallback = false`) whose `originalPath` equals no
fetched SourceFile path. -/
theorem c3_counterexample :
    (fetchFilesP2 w3tree w3fetch).map (fun f => f.path) = ["src/app.ts"] ∧
    ((resultFiles (convertP2 (Except.ok w3tree) w3fetch cx3llm tPy)).getD []).map
      (fun cf => (cf.originalPath, cf.isFallback)) = [(some ("ghost.ts"), false)] ∧
    (∀ f ∈ fetchFilesP2 w3tree w3fetch, f.path ≠ "ghost.ts") := by
  exact ⟨rfl, rfl, by decide⟩

/-- C3 (amended): every file in a successful result either belongs to the
validated output of some successful engine batch — in which case its
`originalPath` is whatever the LLM reply carried, unvalidated — or is a
Fallback-Generator stub, in which case its `originalPath` is the path of a
SourceFile fetched in the same run and its `isFallback` flag is set. -/
theorem c3_amended_fallback_provenance (tree : List TreeEntry)
    (fetchOut : String → Option String) (llm : Nat → Except String String)
    (target : TargetSpec) :
    ∀ cf ∈ (resultFiles (convertP2 (Except.ok tree) fetchOut llm target)).getD [],
      (∃ i b fs,
        (planBatches 80000 (fetchFilesP2 tree fetchOut)).get? i = some b ∧
        convertBatchP2 b target (i + 1) (llm i) = Except.ok fs ∧ cf ∈ fs) ∨
      (∃ f, f ∈ fetchFilesP2 tree fetchOut ∧
        cf.originalPath = some f.path ∧ cf.isFallback = true) := by
  intro cf hcf
  by_cases hempty : (fetchFilesP2 tree fetchOut).isEmpty
  · simp [convertP2, hempty, resultFiles] at hcf
  · simp only [convertP2, hempty, resultFiles, if_false, Bool.false_eq_true,
      Option.getD_some] at hcf
    rcases runBatchesAux_mem target llm
        (planBatches 80000 (fetchFilesP2 tree fetchOut)) 0 cf hcf with
      ⟨i, b, fs, hget, hcb, hmem⟩ | ⟨b, hb, hmem⟩
    · refine Or.inl ⟨i, b, fs, hget, ?_, hmem⟩
      simpa using hcb
    · rcases List.mem_map.mp hmem with ⟨f, hf, hcf'⟩
      refine Or.inr ⟨f, planBatches_mem 80000 _ b hb f hf, ?_, ?_⟩
      · rw [← hcf']
      · rw [← hcf']

/-- Default record used only to take the head of a computed list. -/
def dummyCf : ConvertedFile :=
  { path := "", content := "", originalPath := none, isFallback := false }

/-- The one output file of the concrete C3 witness run. -/
def w3cf : ConvertedFile :=
  ((resultFiles (convertP2 (Except.ok w3tree) w3fetch w3llm tPy)).getD []).headD dummyCf

set_option maxRecDepth 4096 in
/-- Witness for C3 at the concrete fallback run. -/
theorem c3_witness :
    w3cf ∈ (resultFiles (convertP2 (Except.ok w3tree) w3fetch w3llm tPy)).getD [] ∧
    ((∃ i b fs,
        (planBatches 80000 (fetchFilesP2 w3tree w3fetch)).get? i = some b ∧
        convertBatchP2 b tPy (i + 1) (w3llm i) = Except.ok fs ∧ w3cf ∈ fs) ∨
     (∃ f, f ∈ fetchFilesP2 w3tree w3fetch ∧
        w3cf.originalPath = some f.path ∧ w3cf.isFallback = true)) :=
  ⟨by decide, c3_amended_fallback_provenance w3tree w3fetch w3llm tPy w3cf (by decide)⟩

/-- The engine contract: when `convertBatch` returns (rather than raising),
its validated file list is non-empty — the zero-valid-files case raises. -/
theorem convertBatchP2_ok_ne_nil (b : List SourceFile) (t : TargetSpec)
    (i : Nat) (resp : Except String String) (fs : List ConvertedFile)
    (h : convertBatchP2 b t i resp = Except.ok fs) : fs ≠ [] := by
  simp only [convertBatchP2] at h
  repeat' split at h
  any_goals exact Except.noConfusion h
  rename_i hguard
  injection h with h
  rw [← h]
  simpa using hguard

/-- The source can only assign the three priority tiers. -/
theorem getFilePriority_range (path : String) :
    getFilePriority path = 1 ∨ getFilePriority path = 2 ∨
    getFilePriority path = 3 := by
  simp only [getFilePriority]
  split
  · exact Or.inl rfl
  · split
    · exact Or.inr (Or.inl rfl)
    · exact Or.inr (Or.inr rfl)

/-- Every fetched file carries the selector-assigned priority. -/
theorem fetchFilesP2_priority (tree : List TreeEntry)
    (fetchOut : String → Option String) (f : SourceFile)
    (hf : f ∈ fetchFilesP2 tree fetchOut) :
    f.priority = getFilePriority f.path := by
  unfold fetchFilesP2 at hf
  rcases List.mem_filterMap.mp hf with ⟨entry, _, hsome⟩
  split at hsome
  · exact Option.noConfusion hsome
  · split at hsome
    · exact Option.noConfusion hsome
    · injection hsome with hsome
      rw [← hsome]

/-- The batch loop yields at least one output file whenever it is given at
least one non-empty batch: a succeeding engine run returns a non-empty list,
and a failing one is replaced by one stub per batch file. -/
theorem runBatchesAux_ne_nil (target : TargetSpec)
    (llm : Nat → Except String String) (b : List SourceFile)
    (rest : List (List SourceFile)) (j : Nat) (hb : b ≠ []) :
    (runBatchesAux target llm j (b :: rest)).1 ≠ [] := by
  cases hcb : convertBatchP2 b target (j + 1) (llm j) with
  | ok fs =>
    rw [runBatchesAux_cons_ok target llm b rest j fs hcb]
    have := convertBatchP2_ok_ne_nil b target (j + 1) (llm j) fs hcb
    simp [this]
  | error e =>
    rw [runBatchesAux_cons_error target llm b rest j e hcb]
    simp [createFallbackFiles, hb]

/-- Fetch oracle on which every retrieval fails. -/
def cx1fetch : String → Option String := fun _ => none

/-- C1 counterexample: the repository has one selectable file
(`src/app.ts` passes the Selector), but its fetch fails; the source then
takes the `originals.length === 0` early return and answers success with
`files: []` — an empty success for a repository with a selectable file,
contradicting the claim. -/
theorem c1_counterexample :
    isRelevantFile ("src/app.ts") = true ∧
    resultFiles (convertP2 (Except.ok w3tree) cx1fetch w3llm tPy) = some [] :=
  ⟨by decide, rfl⟩

/-- C1 (amended): for every run in which at least one file is actually
fetched, the handler answers success with a non-empty `files` sequence (the
engine returns non-empty lists and the fallback is total, so the batch loop
cannot produce an empty aggregate); when zero files are fetched — including
when every selectable file fails to fetch or is oversized — the handler
returns a success whose `files` list is empty. -/
theorem c1_amended_nonempty_of_fetched (tree : List TreeEntry)
    (fetchOut : String → Option String) (llm : Nat → Except String String)
    (target : TargetSpec) (h : fetchFilesP2 tree fetchOut ≠ []) :
    isOkResponse (convertP2 (Except.ok tree) fetchOut llm target) = true ∧
    (resultFiles (convertP2 (Except.ok tree) fetchOut llm target)).getD [] ≠ [] := by
  have hne : (fetchFilesP2 tree fetchOut).isEmpty = false := by
    simpa using h
  constructor
  · simp [convertP2, hne, isOkResponse]
  · simp only [convertP2, hne, if_false, Bool.false_eq_true, resultFiles,
      Option.getD_some]
    have hpr : ∀ f ∈ fetchFilesP2 tree fetchOut,
        f.priority = 1 ∨ f.priority = 2 ∨ f.priority = 3 := by
      intro f hf
      rw [fetchFilesP2_priority tree fetchOut f hf]
      exact getFilePriority_range f.path
    have hgperm := groupByPriority_perm (fetchFilesP2 tree fetchOut) hpr
    have hgne : groupByPriority (fetchFilesP2 tree fetchOut) ≠ [] := by
      intro hnil
      apply h
      have hlen := hgperm.length_eq
      rw [hnil] at hlen
      exact List.length_eq_zero.mp hlen.symm
    have hbne : planBatches 80000 (fetchFilesP2 tree fetchOut) ≠ [] := by
      intro hnil
      apply hgne
      have hfl := greedyAux_flatten 80000
        (groupByPriority (fetchFilesP2 tree fetchOut)) [] 0
      rw [show greedyAux 80000 (groupByPriority (fetchFilesP2 tree fetchOut)) [] 0
            = planBatches 80000 (fetchFilesP2 tree fetchOut) from rfl,
        hnil] at hfl
      simpa using hfl.symm
    cases hbs : planBatches 80000 (fetchFilesP2 tree fetchOut) with
    | nil => exact absurd hbs hbne
    | cons b0 rest =>
      have hb0 : b0 ≠ [] := by
        apply greedyAux_ne_nil 80000
          (groupByPriority (fetchFilesP2 tree fetchOut)) [] 0 b0
        rw [show greedyAux 80000 (groupByPriority (fetchFilesP2 tree fetchOut)) [] 0
              = planBatches 80000 (fetchFilesP2 tree fetchOut) from rfl, hbs]
        exact List.mem_cons_self _ _
      exact runBatchesAux_ne_nil target llm b0 rest 0 hb0

/-- Witness for C1 at the concrete one-file run. -/
theorem c1_witness :
    fetchFilesP2 w3tree w3fetch ≠ [] ∧
    (isOkResponse (convertP2 (Except.ok w3tree) w3fetch w3llm tPy) = true ∧
     (resultFiles (convertP2 (Except.ok w3tree) w3fetch w3llm tPy)).getD [] ≠ []) :=
  ⟨by decide, c1_amended_nonempty_of_fetched w3tree w3fetch w3llm tPy (by decide)⟩
